import Mathlib

set_option maxHeartbeats 1000000

/-
Shallow embedding of cmd/bd/backup_export.go (the incremental backup export
engine).  Pure Go functions become Lean functions; the relational store, the
filesystem and the JSON codec of the standard library are external
collaborators and are passed in as explicit parameters (query executor,
write-failure oracle, marshal and parse functions).  File writes and query
executions are recorded as an explicit effect trace so that claims about
"what reached disk" and "in which order" can be stated and proved.
-/

namespace BackupExport

/-- Civil components of a Go time.Time value, as consumed by
Format(time.RFC3339): date, time-of-day with second precision, and a
fixed UTC offset in minutes.  The Go zero time is January 1 of year 1,
00:00:00 UTC. -/
structure GoTime where
  year : Nat
  month : Nat
  day : Nat
  hour : Nat
  minute : Nat
  second : Nat
  offMin : Int
deriving DecidableEq, Repr

/-- The Go zero time value (time.Time zero value: Jan 1, year 1, UTC). -/
def goTimeZero : GoTime := ⟨1, 1, 1, 0, 0, 0, 0⟩

/-- Embeds time.Time.IsZero: true exactly on the zero time value. -/
def GoTime.isZeroB (t : GoTime) : Bool := t == goTimeZero

/-- Two-digit zero padding, as in the RFC3339 layout fields. -/
def pad2 (n : Nat) : String := if n < 10 then "0" ++ toString n else toString n

/-- Four-digit zero padding for the year field of the RFC3339 layout. -/
def pad4 (n : Nat) : String :=
  if n < 10 then "000" ++ toString n
  else if n < 100 then "00" ++ toString n
  else if n < 1000 then "0" ++ toString n
  else toString n

/-- The numeric UTC offset suffix of the RFC3339 layout: Z for a zero
offset, otherwise a signed hours-and-minutes offset. -/
def offsetRFC3339 (offMin : Int) : String :=
  if offMin = 0 then "Z"
  else if 0 < offMin then "+" ++ pad2 (offMin.toNat / 60) ++ ":" ++ pad2 (offMin.toNat % 60)
  else "-" ++ pad2 ((-offMin).toNat / 60) ++ ":" ++ pad2 ((-offMin).toNat % 60)

/-- Embeds val.Format(time.RFC3339): date, T, time-of-day with second
precision, then the fixed UTC offset. -/
def formatRFC3339 (t : GoTime) : String :=
  pad4 t.year ++ "-" ++ pad2 t.month ++ "-" ++ pad2 t.day ++ "T" ++
    pad2 t.hour ++ ":" ++ pad2 t.minute ++ ":" ++ pad2 t.second ++
    offsetRFC3339 t.offMin

/-- Embeds the Go conversion string(b) on a byte slice: the bytes are taken
over verbatim as the text content of the resulting string. -/
def decodeBytes (b : List Nat) : String := String.mk (b.map Char.ofNat)

/-- A heterogeneous driver-level row value, as scanned into an untyped slot
by database/sql: raw bytes, a timestamp, NULL, or a typed scalar
(int64, string, bool).  Scalars not listed in the switch of normalizeValue
fall under the typed-scalar constructors and pass through unchanged. -/
inductive Value where
  | null : Value
  | bytes (b : List Nat) : Value
  | time (t : GoTime) : Value
  | int (n : Int) : Value
  | str (s : String) : Value
  | boolean (b : Bool) : Value
deriving DecidableEq, Repr

/-- Embeds normalizeValue (backup_export.go:396-410): the type switch over
the driver value.  Bytes decode to a string; a zero time maps to nil and a
non-zero time to its RFC3339 rendering; nil stays nil; the default case
returns the value unchanged. -/
def normalizeValue : Value → Value
  | Value.bytes b => Value.str (decodeBytes b)
  | Value.time t => if t.isZeroB then Value.null else Value.str (formatRFC3339 t)
  | Value.null => Value.null
  | v => v

/-- A row map as built by exportTable: Go map[string]interface{} semantics,
represented as an association list where a later assignment to an existing
key replaces the earlier binding in place. -/
abbrev RowMap := List (String × Value)

/-- Go map assignment row[k] = v: replace an existing binding, else append. -/
def mapSet (m : RowMap) (k : String) (v : Value) : RowMap :=
  match m with
  | [] => [(k, v)]
  | (k2, v2) :: rest => if k2 = k then (k, v) :: rest else (k2, v2) :: mapSet rest k v

/-- Go map read row[k]: the binding for k, if any. -/
def mapGet (m : RowMap) (k : String) : Option Value :=
  match m with
  | [] => none
  | (k2, v) :: rest => if k2 = k then some v else mapGet rest k

/-- Embeds the per-row map construction of exportTable and
exportEventsIncremental: zip the discovered column names with the scanned
values and store each normalized value under its column name. -/
def buildRowMap (cols : List String) (vals : List Value) : RowMap :=
  (List.zip cols vals).foldl (fun m p => mapSet m p.1 (normalizeValue p.2)) []

instance {e a : Type} [DecidableEq e] [DecidableEq a] : DecidableEq (Except e a) := fun x y =>
  match x, y with
  | Except.error u, Except.error v =>
      if h : u = v then Decidable.isTrue (congrArg Except.error h)
      else Decidable.isFalse (fun hh => h (Except.error.inj hh))
  | Except.error _, Except.ok _ => Decidable.isFalse (fun hh => Except.noConfusion hh)
  | Except.ok _, Except.error _ => Decidable.isFalse (fun hh => Except.noConfusion hh)
  | Except.ok u, Except.ok v =>
      if h : u = v then Decidable.isTrue (congrArg Except.ok h)
      else Decidable.isFalse (fun hh => h (Except.ok.inj hh))

/-- The outcome of iterating a sql.Rows: the result of rows.Columns, the
scanned rows in order (each either the scanned values or a scan error), and
the terminal rows.Err value checked after the loop. -/
structure RowsData where
  colsResult : Except String (List String)
  data : List (Except String (List Value))
  iterErr : Option String
deriving DecidableEq, Repr

/-- The outcome of a QueryContext call: either the query itself fails, or a
rows handle is produced. -/
inductive QueryResult where
  | failure (e : String) : QueryResult
  | success (r : RowsData) : QueryResult
deriving DecidableEq, Repr

/-- One observable side effect of a run: a query execution against the
store, or a file write (append = true for the O_APPEND events path,
false for a write through atomicWriteFile). -/
inductive Effect where
  | queryExec (sql : String) : Effect
  | fileWrite (name : String) (content : String) (append : Bool) : Effect
deriving DecidableEq, Repr

abbrev Effects := List Effect

/-- Per-entity row counts of the backup state (the counts field of
backupState in backup_export.go:30-37). -/
structure BackupCounts where
  Issues : Int
  Events : Int
  Comments : Int
  Dependencies : Int
  Labels : Int
  Config : Int
deriving DecidableEq, Repr

/-- Embeds backupState (backup_export.go:26-38): last exported Dolt commit,
events high-water mark, timestamp of the last successful run, and the
per-entity counts.  The timestamp is modelled as an integer instant. -/
structure BackupState where
  LastDoltCommit : String
  LastEventID : Int
  Timestamp : Int
  Counts : BackupCounts
deriving DecidableEq, Repr

/-- The zero value of backupState, as produced by new(backupState) when the
state file is missing. -/
def zeroBackupState : BackupState :=
  { LastDoltCommit := "", LastEventID := 0, Timestamp := 0,
    Counts := { Issues := 0, Events := 0, Comments := 0,
                Dependencies := 0, Labels := 0, Config := 0 } }

/-- The outcome of the os.ReadFile call in loadBackupState: the file does
not exist, reading fails, or the raw content is returned. -/
inductive FileReadResult where
  | notExist : FileReadResult
  | readFailure (e : String) : FileReadResult
  | content (s : String) : FileReadResult
deriving Repr

/-- Embeds loadBackupState (backup_export.go:72-86).  json.Unmarshal is the
standard library and is passed in as the parse parameter: parse s = none
models an Unmarshal error on content s.  A missing file yields the zero
state; a read error or a parse error is returned as an error. -/
def loadBackupState (parse : String → Option BackupState) :
    FileReadResult → Except String BackupState
  | FileReadResult.notExist => Except.ok zeroBackupState
  | FileReadResult.readFailure e => Except.error ("failed to read backup state: " ++ e)
  | FileReadResult.content s =>
      match parse s with
      | none => Except.error "failed to parse backup state"
      | some st => Except.ok st

/-- Rendering of the state as indented JSON, standing for
json.MarshalIndent in saveBackupState (which cannot fail on this struct,
so its error branch is dead code in the model). -/
def marshalState (st : BackupState) : String :=
  "\x7b \"last_dolt_commit\": \"" ++ st.LastDoltCommit ++
    "\", \"last_event_id\": " ++ toString st.LastEventID ++
    ", \"timestamp\": " ++ toString st.Timestamp ++
    ", \"counts\": \x7b \"issues\": " ++ toString st.Counts.Issues ++
    ", \"events\": " ++ toString st.Counts.Events ++
    ", \"comments\": " ++ toString st.Counts.Comments ++
    ", \"dependencies\": " ++ toString st.Counts.Dependencies ++
    ", \"labels\": " ++ toString st.Counts.Labels ++
    ", \"config\": " ++ toString st.Counts.Config ++ " \x7d \x7d"

/-- Embeds saveBackupState (backup_export.go:89-95): marshal the state and
hand it to atomicWriteFile targeting backup_state.json.  The wfail oracle
says, per file name, whether the atomic write fails; on failure
atomicWriteFile removes its temp file and the target is untouched, so no
write effect is recorded. -/
def saveBackupState (wfail : String → Option String) (st : BackupState) :
    Except String Unit × Effects :=
  match wfail "backup_state.json" with
  | some e => (Except.error e, [])
  | none => (Except.ok (), [Effect.fileWrite "backup_state.json" (marshalState st) false])

/-- The store collaborator as seen by one run: the query executor (shared
by exportTable, exportEventsIncremental and tableExistsCheck), and the two
GetCurrentCommit calls of runBackupExport (change detection at the start,
watermark update at the end; the store may advance in between, so they are
separate fields). -/
structure Store where
  exec : String → List Value → QueryResult
  commit1 : Except String String
  commit2 : Except String String

/-- The metadata existence probe query of tableExistsCheck. -/
def probeQuery : String :=
  "SELECT TABLE_NAME FROM information_schema.tables WHERE TABLE_NAME = ?"

/-- Embeds tableExistsCheck (backup_export.go:235-242): run the
information_schema probe; a query error yields false, otherwise the result
is whether a first row exists (rows.Next). -/
def tableExistsCheck (exec : String → List Value → QueryResult) (table : String) :
    Bool × Effects :=
  match exec probeQuery [Value.str table] with
  | QueryResult.failure _ => (false, [Effect.queryExec probeQuery])
  | QueryResult.success r => (!r.data.isEmpty, [Effect.queryExec probeQuery])

/-- The issues query (backup_export.go:156-159), primary-only or merged
with the wisps shadow table. -/
def issuesQuery (hasWisps : Bool) : String :=
  if hasWisps then "SELECT * FROM issues UNION ALL SELECT * FROM wisps ORDER BY id"
  else "SELECT * FROM issues ORDER BY id"

/-- The comments query (backup_export.go:173-179). -/
def commentsQuery (hasWisps : Bool) : String :=
  if hasWisps then
    "SELECT id, issue_id, author, text, created_at FROM comments UNION ALL SELECT id, issue_id, author, text, created_at FROM wisp_comments ORDER BY id"
  else "SELECT id, issue_id, author, text, created_at FROM comments ORDER BY id"

/-- The dependencies query (backup_export.go:186-192). -/
def depsQuery (hasWisps : Bool) : String :=
  if hasWisps then
    "SELECT issue_id, depends_on_id, type, created_at, created_by FROM dependencies UNION ALL SELECT issue_id, depends_on_id, type, created_at, created_by FROM wisp_dependencies ORDER BY issue_id, depends_on_id"
  else "SELECT issue_id, depends_on_id, type, created_at, created_by FROM dependencies ORDER BY issue_id, depends_on_id"

/-- The labels query (backup_export.go:199-205). -/
def labelsQuery (hasWisps : Bool) : String :=
  if hasWisps then
    "SELECT issue_id, label FROM labels UNION ALL SELECT issue_id, label FROM wisp_labels ORDER BY issue_id, label"
  else "SELECT issue_id, label FROM labels ORDER BY issue_id, label"

/-- The config query (backup_export.go:213). -/
def configQuery : String := "SELECT `key`, value FROM config ORDER BY `key`"

/-- The events queries of exportEventsIncremental (backup_export.go:304-316),
watermark-filtered, primary-only or unioned with wisp_events. -/
def eventsQuery (hasWisps : Bool) : String :=
  if hasWisps then
    "SELECT id, issue_id, event_type, actor, old_value, new_value, comment, created_at FROM events WHERE id > ? UNION ALL SELECT id, issue_id, event_type, actor, old_value, new_value, comment, created_at FROM wisp_events WHERE id > ? ORDER BY id ASC"
  else
    "SELECT id, issue_id, event_type, actor, old_value, new_value, comment, created_at FROM events WHERE id > ? ORDER BY id ASC"

/-- The bound-query arguments of exportEventsIncremental: the stored
watermark, passed once for the primary-only query and once per branch of
the unioned query. -/
def eventsArgs (hasWisps : Bool) (w : Int) : List Value :=
  if hasWisps then [Value.int w, Value.int w] else [Value.int w]

/-- Embeds the row loop of exportTable (backup_export.go:269-293):
scan each row (a scan error aborts), build the normalized row map, marshal
it (the json.Marshal model may fail), and buffer the line with a trailing
newline, counting rows.  Returns the full buffer and the row count. -/
def exportRowsFold (marshal : RowMap → Except String String) (cols : List String) :
    List (Except String (List Value)) → Except String (String × Int)
  | [] => Except.ok ("", 0)
  | Except.error e :: _ => Except.error ("scan failed: " ++ e)
  | Except.ok vals :: rest =>
      match marshal (buildRowMap cols vals) with
      | Except.error e => Except.error ("marshal failed: " ++ e)
      | Except.ok line =>
          match exportRowsFold marshal cols rest with
          | Except.error e => Except.error e
          | Except.ok (buf, n) => Except.ok (line ++ "\n" ++ buf, n + 1)

/-- Embeds exportTable (backup_export.go:254-299): run the query, discover
the columns, materialize the full buffer row by row, check rows.Err, and
only then write the buffer through atomicWriteFile to the output file
(append = false).  Any failure returns an error with no file write. -/
def exportTable (exec : String → List Value → QueryResult)
    (marshal : RowMap → Except String String) (wfail : String → Option String)
    (filename sql : String) : Except String Int × Effects :=
  match exec sql [] with
  | QueryResult.failure e => (Except.error ("query failed: " ++ e), [Effect.queryExec sql])
  | QueryResult.success r =>
      match r.colsResult with
      | Except.error e => (Except.error ("failed to get columns: " ++ e), [Effect.queryExec sql])
      | Except.ok cols =>
          match exportRowsFold marshal cols r.data with
          | Except.error e => (Except.error e, [Effect.queryExec sql])
          | Except.ok (buf, n) =>
              match r.iterErr with
              | some e => (Except.error ("row iteration failed: " ++ e), [Effect.queryExec sql])
              | none =>
                  match wfail filename with
                  | some e => (Except.error e, [Effect.queryExec sql])
                  | none => (Except.ok n, [Effect.queryExec sql, Effect.fileWrite filename buf false])

/-- Embeds the row loop of exportEventsIncremental (backup_export.go:333-360):
like exportRowsFold but additionally tracking the high-water mark maxID,
starting at 0 and raised to each row's id value when that map entry is an
int64 exceeding the running maximum. -/
def eventsRowsFold (marshal : RowMap → Except String String) (cols : List String) :
    List (Except String (List Value)) → Except String (String × Int × Int)
  | [] => Except.ok ("", 0, 0)
  | Except.error e :: _ => Except.error ("scan failed: " ++ e)
  | Except.ok vals :: rest =>
      match marshal (buildRowMap cols vals) with
      | Except.error e => Except.error ("marshal failed: " ++ e)
      | Except.ok line =>
          match eventsRowsFold marshal cols rest with
          | Except.error e => Except.error e
          | Except.ok (buf, n, mx) =>
              match mapGet (buildRowMap cols vals) "id" with
              | some (Value.int k) =>
                  Except.ok (line ++ "\n" ++ buf, n + 1, if k > mx then k else mx)
              | _ => Except.ok (line ++ "\n" ++ buf, n + 1, mx)

/-- Embeds exportEventsIncremental (backup_export.go:303-393): select rows
above the stored watermark (unioned with wisp_events when the shadow table
exists), materialize them, and if any were found either write events.jsonl
atomically (first run, watermark 0) or append to it; finally set the
in-memory watermark to the maxID observed.  Zero new rows return count 0
with no error, no file effect and the state unchanged. -/
def exportEventsIncremental (exec : String → List Value → QueryResult)
    (marshal : RowMap → Except String String) (wfail : String → Option String)
    (st : BackupState) (hasWisps : Bool) : Except String (Int × BackupState) × Effects :=
  let q := eventsQuery hasWisps
  let args := eventsArgs hasWisps st.LastEventID
  match exec q args with
  | QueryResult.failure e => (Except.error ("query failed: " ++ e), [Effect.queryExec q])
  | QueryResult.success r =>
      match r.colsResult with
      | Except.error e => (Except.error ("failed to get columns: " ++ e), [Effect.queryExec q])
      | Except.ok cols =>
          match eventsRowsFold marshal cols r.data with
          | Except.error e => (Except.error e, [Effect.queryExec q])
          | Except.ok (buf, n, mx) =>
              match r.iterErr with
              | some e => (Except.error ("row iteration failed: " ++ e), [Effect.queryExec q])
              | none =>
                  if n = 0 then (Except.ok (0, st), [Effect.queryExec q])
                  else
                    match wfail "events.jsonl" with
                    | some e =>
                        (Except.error (if st.LastEventID = 0 then e
                                       else "failed to append events: " ++ e),
                         [Effect.queryExec q])
                    | none =>
                        (Except.ok (n, { st with LastEventID := mx }),
                         [Effect.queryExec q,
                          Effect.fileWrite "events.jsonl" buf (st.LastEventID != 0)])

/-- Sequencing of two effectful fallible steps, as in the straight-line Go
code: a failed first step short-circuits with its effects; otherwise the
effects concatenate. -/
def bindE {a b : Type} (m : Except String a × Effects)
    (f : a → Except String b × Effects) : Except String b × Effects :=
  match m.1 with
  | Except.error e => (Except.error e, m.2)
  | Except.ok x => ((f x).1, m.2 ++ (f x).2)

/-- Wraps a step error with its entity context, as fmt.Errorf does at each
call site of runBackupExport. -/
def withErrCtx {a : Type} (msg : String) (m : Except String a × Effects) :
    Except String a × Effects :=
  match m with
  | (Except.error e, effs) => (Except.error (msg ++ e), effs)
  | ok => ok

/-- Embeds the export sequence of runBackupExport (backup_export.go:156-231)
after change detection and the shadow probe: issues, then the incremental
events export, then comments, dependencies, labels and config, each
updating its count in the state (events by accumulation), and finally the
second GetCurrentCommit call stamping LastDoltCommit and Timestamp. -/
def runExports (store : Store) (marshal : RowMap → Except String String)
    (wfail : String → Option String) (hasWisps : Bool) (st : BackupState)
    (now : Int) : Except String BackupState × Effects :=
  bindE (withErrCtx "backup issues: "
      (exportTable store.exec marshal wfail "issues.jsonl" (issuesQuery hasWisps))) (fun n1 =>
  bindE (withErrCtx "backup events: "
      (exportEventsIncremental store.exec marshal wfail
        { st with Counts := { st.Counts with Issues := n1 } } hasWisps)) (fun p =>
  bindE (withErrCtx "backup comments: "
      (exportTable store.exec marshal wfail "comments.jsonl" (commentsQuery hasWisps))) (fun n3 =>
  bindE (withErrCtx "backup dependencies: "
      (exportTable store.exec marshal wfail "dependencies.jsonl" (depsQuery hasWisps))) (fun n4 =>
  bindE (withErrCtx "backup labels: "
      (exportTable store.exec marshal wfail "labels.jsonl" (labelsQuery hasWisps))) (fun n5 =>
  bindE (withErrCtx "backup config: "
      (exportTable store.exec marshal wfail "config.jsonl" configQuery)) (fun n6 =>
  match store.commit2 with
  | Except.error e => (Except.error ("failed to get current commit for state: " ++ e), [])
  | Except.ok c =>
      (Except.ok { p.2 with
          LastDoltCommit := c, Timestamp := now,
          Counts := { p.2.Counts with
            Events := p.2.Counts.Events + p.1, Comments := n3,
            Dependencies := n4, Labels := n5, Config := n6 } }, [])))))))

/-- The main path of runBackupExport once it is past change detection: the
shadow-table probe, the export sequence, and the final saveBackupState that
persists the state only when every export succeeded. -/
def runMain (store : Store) (marshal : RowMap → Except String String)
    (wfail : String → Option String) (st : BackupState) (now : Int) :
    Except String BackupState × Effects :=
  let pr := tableExistsCheck store.exec "wisps"
  let r := runExports store marshal wfail pr.1 st now
  match r.1 with
  | Except.error e => (Except.error e, pr.2 ++ r.2)
  | Except.ok st2 =>
      match (saveBackupState wfail st2).1 with
      | Except.error e => (Except.error e, pr.2 ++ r.2)
      | Except.ok _ => (Except.ok st2, pr.2 ++ r.2 ++ (saveBackupState wfail st2).2)

/-- Embeds runBackupExport (backup_export.go:129-232): load the state
(backupDir resolution is external plumbing and modelled as succeeding);
unless forced, read the current commit and short-circuit when it matches a
non-empty recorded commit; otherwise probe the shadow table, run every
export, and persist the state as the last step. -/
def runBackupExport (store : Store) (marshal : RowMap → Except String String)
    (wfail : String → Option String) (parse : String → Option BackupState)
    (stateFile : FileReadResult) (force : Bool) (now : Int) :
    Except String BackupState × Effects :=
  match loadBackupState parse stateFile with
  | Except.error e => (Except.error e, [])
  | Except.ok st =>
      if force then runMain store marshal wfail st now
      else
        match store.commit1 with
        | Except.error e => (Except.error ("failed to get current commit: " ++ e), [])
        | Except.ok c =>
            if c = st.LastDoltCommit ∧ st.LastDoltCommit ≠ "" then (Except.ok st, [])
            else runMain store marshal wfail st now

/-- True exactly on a write to the persisted state file. -/
def Effect.isStateWrite : Effect → Bool
  | Effect.fileWrite n _ _ => n == "backup_state.json"
  | _ => false

/-- True exactly on a file-write effect of any kind. -/
def Effect.isFileWrite : Effect → Bool
  | Effect.fileWrite _ _ _ => true
  | _ => false

/-- The queries a trace executed, in order. -/
def queryTrace (effs : Effects) : List String :=
  effs.filterMap (fun e =>
    match e with
    | Effect.queryExec s => some s
    | _ => none)

/-- Store faithfulness of one returned row with respect to the WHERE id
filter of the events query: a scanned row must carry an int64 id column
strictly above the queried watermark (scan-error entries are exempt since
they abort the export anyway). -/
def entryIdAbove (cols : List String) (w : Int) : Except String (List Value) → Bool
  | Except.error _ => true
  | Except.ok vals =>
      match mapGet (buildRowMap cols vals) "id" with
      | some (Value.int k) => decide (w < k)
      | _ => false

/-- The int64 id column of a scanned row, when present. -/
def entryId (cols : List String) : Except String (List Value) → Option Int
  | Except.error _ => none
  | Except.ok vals =>
      match mapGet (buildRowMap cols vals) "id" with
      | some (Value.int k) => some k
      | _ => none

theorem withErrCtx_snd {a : Type} (msg : String) (m : Except String a × Effects) :
    (withErrCtx msg m).2 = m.2 := by
  unfold withErrCtx
  rcases m with ⟨r, effs⟩
  cases r <;> rfl

theorem withErrCtx_ok {a : Type} (msg : String) (m : Except String a × Effects) (x : a) :
    (withErrCtx msg m).1 = Except.ok x ↔ m.1 = Except.ok x := by
  unfold withErrCtx
  rcases m with ⟨r, effs⟩
  cases r <;> simp

theorem bindE_countP {a b : Type} (p : Effect → Bool) (m : Except String a × Effects)
    (f : a → Except String b × Effects) (h1 : m.2.countP p = 0)
    (h2 : ∀ x, ((f x).2).countP p = 0) : ((bindE m f).2).countP p = 0 := by
  unfold bindE
  cases hm : m.1 with
  | error e => simpa using h1
  | ok x =>
      simp only [List.countP_append]
      have h2x := h2 x
      omega

theorem bindE_mem {a b : Type} (m : Except String a × Effects)
    (f : a → Except String b × Effects) (e : Effect) (h : e ∈ (bindE m f).2) :
    e ∈ m.2 ∨ ∃ x, e ∈ (f x).2 := by
  unfold bindE at h
  cases hm : m.1 with
  | error msg => rw [hm] at h; exact Or.inl h
  | ok x =>
      rw [hm] at h
      simp only [List.mem_append] at h
      rcases h with h | h
      · exact Or.inl h
      · exact Or.inr ⟨x, h⟩

theorem bindE_ok {a b : Type} (m : Except String a × Effects)
    (f : a → Except String b × Effects) (y : b)
    (h : (bindE m f).1 = Except.ok y) :
    ∃ x, m.1 = Except.ok x ∧ (f x).1 = Except.ok y ∧
      (bindE m f).2 = m.2 ++ (f x).2 := by
  unfold bindE at h ⊢
  cases hm : m.1 with
  | error msg => rw [hm] at h; simp at h
  | ok x =>
      rw [hm] at h
      exact ⟨x, rfl, h, rfl⟩

theorem tableExistsCheck_effects (exec : String → List Value → QueryResult)
    (table : String) :
    (tableExistsCheck exec table).2 = [Effect.queryExec probeQuery] := by
  unfold tableExistsCheck
  split <;> rfl

theorem exportTable_effects (exec : String → List Value → QueryResult)
    (marshal : RowMap → Except String String) (wfail : String → Option String)
    (filename sql : String) :
    (exportTable exec marshal wfail filename sql).2 = [Effect.queryExec sql] ∨
    ∃ buf, (exportTable exec marshal wfail filename sql).2 =
      [Effect.queryExec sql, Effect.fileWrite filename buf false] := by
  unfold exportTable
  repeat' split
  all_goals first
    | exact Or.inl rfl
    | exact Or.inr ⟨_, rfl⟩

theorem exportTable_error_effects (exec : String → List Value → QueryResult)
    (marshal : RowMap → Except String String) (wfail : String → Option String)
    (filename sql : String)
    (h : (exportTable exec marshal wfail filename sql).1.isOk = false) :
    (exportTable exec marshal wfail filename sql).2 = [Effect.queryExec sql] := by
  unfold exportTable at h ⊢
  repeat' split
  all_goals simp_all [Except.isOk, Except.toBool]

theorem exportTable_ok (exec : String → List Value → QueryResult)
    (marshal : RowMap → Except String String) (wfail : String → Option String)
    (filename sql : String) (n : Int)
    (h : (exportTable exec marshal wfail filename sql).1 = Except.ok n) :
    ∃ buf, (exportTable exec marshal wfail filename sql).2 =
      [Effect.queryExec sql, Effect.fileWrite filename buf false] := by
  unfold exportTable at h ⊢
  repeat' split
  all_goals simp_all

theorem exportEventsIncremental_effects (exec : String → List Value → QueryResult)
    (marshal : RowMap → Except String String) (wfail : String → Option String)
    (st : BackupState) (hw : Bool) :
    (exportEventsIncremental exec marshal wfail st hw).2 =
      [Effect.queryExec (eventsQuery hw)] ∨
    ∃ buf ap, (exportEventsIncremental exec marshal wfail st hw).2 =
      [Effect.queryExec (eventsQuery hw), Effect.fileWrite "events.jsonl" buf ap] := by
  unfold exportEventsIncremental
  dsimp only
  repeat' split
  all_goals first
    | exact Or.inl rfl
    | exact Or.inr ⟨_, _, rfl⟩

theorem exportEventsIncremental_frame (exec : String → List Value → QueryResult)
    (marshal : RowMap → Except String String) (wfail : String → Option String)
    (st : BackupState) (hw : Bool) (n : Int) (st2 : BackupState)
    (h : (exportEventsIncremental exec marshal wfail st hw).1 = Except.ok (n, st2)) :
    st2.Counts = st.Counts ∧ st2.LastDoltCommit = st.LastDoltCommit ∧
      st2.Timestamp = st.Timestamp ∧ (n = 0 → st2 = st) := by
  unfold exportEventsIncremental at h
  dsimp only at h
  repeat' split at h
  all_goals simp_all
  all_goals rcases h with ⟨hn, hst⟩
  all_goals rw [← hst]
  all_goals simp_all

theorem queryTrace_append (a b : Effects) :
    queryTrace (a ++ b) = queryTrace a ++ queryTrace b := by
  simp [queryTrace]

theorem exportTable_queryTrace (exec : String → List Value → QueryResult)
    (marshal : RowMap → Except String String) (wfail : String → Option String)
    (filename sql : String) :
    queryTrace (exportTable exec marshal wfail filename sql).2 = [sql] := by
  rcases exportTable_effects exec marshal wfail filename sql with h | ⟨buf, h⟩ <;>
    simp [h, queryTrace]

theorem exportEventsIncremental_queryTrace (exec : String → List Value → QueryResult)
    (marshal : RowMap → Except String String) (wfail : String → Option String)
    (st : BackupState) (hw : Bool) :
    queryTrace (exportEventsIncremental exec marshal wfail st hw).2 = [eventsQuery hw] := by
  rcases exportEventsIncremental_effects exec marshal wfail st hw with h | ⟨buf, ap, h⟩ <;>
    simp [h, queryTrace]

theorem runExports_ok (store : Store) (marshal : RowMap → Except String String)
    (wfail : String → Option String) (hw : Bool) (st : BackupState)
    (now : Int) (st2 : BackupState)
    (h : (runExports store marshal wfail hw st now).1 = Except.ok st2) :
    ∃ n1 ne stE n3 n4 n5 n6 c,
      (exportTable store.exec marshal wfail "issues.jsonl" (issuesQuery hw)).1 = Except.ok n1 ∧
      (exportEventsIncremental store.exec marshal wfail
          { st with Counts := { st.Counts with Issues := n1 } } hw).1 = Except.ok (ne, stE) ∧
      (exportTable store.exec marshal wfail "comments.jsonl" (commentsQuery hw)).1 = Except.ok n3 ∧
      (exportTable store.exec marshal wfail "dependencies.jsonl" (depsQuery hw)).1 = Except.ok n4 ∧
      (exportTable store.exec marshal wfail "labels.jsonl" (labelsQuery hw)).1 = Except.ok n5 ∧
      (exportTable store.exec marshal wfail "config.jsonl" configQuery).1 = Except.ok n6 ∧
      store.commit2 = Except.ok c ∧
      st2 = { stE with
                LastDoltCommit := c
                Timestamp := now
                Counts := { stE.Counts with
                              Events := stE.Counts.Events + ne
                              Comments := n3
                              Dependencies := n4
                              Labels := n5
                              Config := n6 } } ∧
      queryTrace (runExports store marshal wfail hw st now).2 =
        [issuesQuery hw, eventsQuery hw, commentsQuery hw, depsQuery hw, labelsQuery hw,
          configQuery] := by
  unfold runExports at h ⊢
  obtain ⟨n1, h1, h, heff1⟩ := bindE_ok _ _ _ h
  rw [withErrCtx_ok] at h1
  obtain ⟨p, h2, h, heff2⟩ := bindE_ok _ _ _ h
  rw [withErrCtx_ok] at h2
  obtain ⟨ne, stE⟩ := p
  obtain ⟨n3, h3, h, heff3⟩ := bindE_ok _ _ _ h
  rw [withErrCtx_ok] at h3
  obtain ⟨n4, h4, h, heff4⟩ := bindE_ok _ _ _ h
  rw [withErrCtx_ok] at h4
  obtain ⟨n5, h5, h, heff5⟩ := bindE_ok _ _ _ h
  rw [withErrCtx_ok] at h5
  obtain ⟨n6, h6, h, heff6⟩ := bindE_ok _ _ _ h
  rw [withErrCtx_ok] at h6
  rw [heff1, heff2, heff3, heff4, heff5, heff6]
  simp only [queryTrace_append, withErrCtx_snd, exportTable_queryTrace,
    exportEventsIncremental_queryTrace]
  cases hc : store.commit2 with
  | error e => rw [hc] at h; simp at h
  | ok c =>
      rw [hc] at h
      simp only [Except.ok.injEq] at h
      exact ⟨n1, ne, stE, n3, n4, n5, n6, c, h1, h2, h3, h4, h5, h6, rfl, h.symm,
        by simp [queryTrace]⟩

theorem exportTable_no_stateWrite (exec : String → List Value → QueryResult)
    (marshal : RowMap → Except String String) (wfail : String → Option String)
    (filename sql : String) (hne : (filename == "backup_state.json") = false) :
    ((exportTable exec marshal wfail filename sql).2).countP Effect.isStateWrite = 0 := by
  rcases exportTable_effects exec marshal wfail filename sql with h | ⟨buf, h⟩ <;>
    simp [h, List.countP_cons, Effect.isStateWrite, hne]

theorem exportEventsIncremental_no_stateWrite (exec : String → List Value → QueryResult)
    (marshal : RowMap → Except String String) (wfail : String → Option String)
    (st : BackupState) (hw : Bool) :
    ((exportEventsIncremental exec marshal wfail st hw).2).countP Effect.isStateWrite = 0 := by
  rcases exportEventsIncremental_effects exec marshal wfail st hw with h | ⟨buf, ap, h⟩ <;>
    simp [h, List.countP_cons, Effect.isStateWrite]

theorem runExports_no_stateWrite (store : Store) (marshal : RowMap → Except String String)
    (wfail : String → Option String) (hw : Bool) (st : BackupState) (now : Int) :
    ((runExports store marshal wfail hw st now).2).countP Effect.isStateWrite = 0 := by
  unfold runExports
  refine bindE_countP _ _ _ ?_ (fun n1 => ?_)
  · rw [withErrCtx_snd]; exact exportTable_no_stateWrite _ _ _ _ _ (by decide)
  refine bindE_countP _ _ _ ?_ (fun p => ?_)
  · rw [withErrCtx_snd]; exact exportEventsIncremental_no_stateWrite _ _ _ _ _
  refine bindE_countP _ _ _ ?_ (fun n3 => ?_)
  · rw [withErrCtx_snd]; exact exportTable_no_stateWrite _ _ _ _ _ (by decide)
  refine bindE_countP _ _ _ ?_ (fun n4 => ?_)
  · rw [withErrCtx_snd]; exact exportTable_no_stateWrite _ _ _ _ _ (by decide)
  refine bindE_countP _ _ _ ?_ (fun n5 => ?_)
  · rw [withErrCtx_snd]; exact exportTable_no_stateWrite _ _ _ _ _ (by decide)
  refine bindE_countP _ _ _ ?_ (fun n6 => ?_)
  · rw [withErrCtx_snd]; exact exportTable_no_stateWrite _ _ _ _ _ (by decide)
  cases store.commit2 <;> simp

theorem tableExistsCheck_no_stateWrite (exec : String → List Value → QueryResult)
    (table : String) :
    ((tableExistsCheck exec table).2).countP Effect.isStateWrite = 0 := by
  rw [tableExistsCheck_effects]
  simp [Effect.isStateWrite]

theorem runMain_stateWrite (store : Store) (marshal : RowMap → Except String String)
    (wfail : String → Option String) (st : BackupState) (now : Int) :
    ((runMain store marshal wfail st now).2).countP Effect.isStateWrite ≤ 1 ∧
    ((runMain store marshal wfail st now).1.isOk = false →
      ((runMain store marshal wfail st now).2).countP Effect.isStateWrite = 0) ∧
    (∀ st2, (runMain store marshal wfail st now).1 = Except.ok st2 →
      ((runMain store marshal wfail st now).2).countP Effect.isStateWrite = 1 ∧
      ((runMain store marshal wfail st now).2).getLast? =
        some (Effect.fileWrite "backup_state.json" (marshalState st2) false)) := by
  unfold runMain
  dsimp only
  have hpr := tableExistsCheck_no_stateWrite store.exec "wisps"
  have hre := runExports_no_stateWrite store marshal wfail
    (tableExistsCheck store.exec "wisps").1 st now
  cases hr : (runExports store marshal wfail (tableExistsCheck store.exec "wisps").1 st now).1 with
  | error e =>
      simp only [List.countP_append]
      refine ⟨by simp [hpr, hre], fun _ => by simp [hpr, hre], fun st2 hst2 => ?_⟩
      simp at hst2
  | ok st2 =>
      unfold saveBackupState
      cases hwf : wfail "backup_state.json" with
      | some e =>
          simp only [List.countP_append]
          refine ⟨by simp [hpr, hre], fun _ => by simp [hpr, hre], fun st3 hst3 => ?_⟩
          simp at hst3
      | none =>
          simp only [List.countP_append, List.countP_cons, List.countP_nil,
            Effect.isStateWrite, Except.isOk, Except.toBool, List.getLast?_concat]
          refine ⟨by simp [hpr, hre], by simp, fun st3 hst3 => ?_⟩
          simp only [Except.ok.injEq] at hst3
          subst hst3
          constructor
          · simp [hpr, hre]
          · rfl

theorem exportRowsFold_length (marshal : RowMap → Except String String)
    (cols : List String) (data : List (Except String (List Value))) :
    ∀ (buf : String) (n : Int),
      exportRowsFold marshal cols data = Except.ok (buf, n) → n = data.length := by
  induction data with
  | nil =>
      intro buf n h
      simp only [exportRowsFold, Except.ok.injEq, Prod.mk.injEq] at h
      simp [← h.2]
  | cons hd tl ih =>
      intro buf n h
      cases hd with
      | error e => simp [exportRowsFold] at h
      | ok vals =>
          simp only [exportRowsFold] at h
          cases hm : marshal (buildRowMap cols vals) with
          | error e => rw [hm] at h; simp at h
          | ok line =>
              rw [hm] at h
              cases hf : exportRowsFold marshal cols tl with
              | error e => rw [hf] at h; simp at h
              | ok p =>
                  rw [hf] at h
                  obtain ⟨b0, n0⟩ := p
                  simp only [Except.ok.injEq, Prod.mk.injEq] at h
                  have hn0 := ih b0 n0 hf
                  simp only [List.length_cons]
                  push_cast
                  omega

theorem entryIdAbove_ok (cols : List String) (w : Int) (vals : List Value)
    (h : entryIdAbove cols w (Except.ok vals) = true) :
    ∃ k, mapGet (buildRowMap cols vals) "id" = some (Value.int k) ∧ w < k := by
  unfold entryIdAbove at h
  dsimp only at h
  cases hmg : mapGet (buildRowMap cols vals) "id" with
  | none => rw [hmg] at h; simp at h
  | some v =>
      rw [hmg] at h
      cases v <;> simp_all

theorem eventsRowsFold_spec (marshal : RowMap → Except String String)
    (cols : List String) (w : Int) (hw0 : 0 ≤ w)
    (data : List (Except String (List Value))) :
    ∀ (buf : String) (n mx : Int),
      (∀ entry ∈ data, entryIdAbove cols w entry = true) →
      eventsRowsFold marshal cols data = Except.ok (buf, n, mx) →
      n = data.length ∧ (n = 0 → mx = 0) ∧
      (0 < n → mx ∈ data.filterMap (entryId cols) ∧
        (∀ k ∈ data.filterMap (entryId cols), k ≤ mx) ∧ w < mx) := by
  induction data with
  | nil =>
      intro buf n mx hgood h
      simp only [eventsRowsFold, Except.ok.injEq, Prod.mk.injEq] at h
      refine ⟨by simp [← h.2.1], fun _ => h.2.2.symm, fun hn => ?_⟩
      rw [← h.2.1] at hn
      simp at hn
  | cons hd tl ih =>
      intro buf n mx hgood h
      cases hd with
      | error e => simp [eventsRowsFold] at h
      | ok vals =>
          obtain ⟨k, hk, hwk⟩ := entryIdAbove_ok cols w vals
            (hgood (Except.ok vals) (List.mem_cons_self _ _))
          simp only [eventsRowsFold] at h
          cases hm : marshal (buildRowMap cols vals) with
          | error e => rw [hm] at h; simp at h
          | ok line =>
              rw [hm] at h
              cases hf : eventsRowsFold marshal cols tl with
              | error e => rw [hf] at h; simp at h
              | ok p =>
                  rw [hf] at h
                  obtain ⟨b0, n0, mx0⟩ := p
                  dsimp only at h
                  rw [hk] at h
                  simp only [Except.ok.injEq, Prod.mk.injEq] at h
                  obtain ⟨hbuf, hn, hmx⟩ := h
                  have hgood' : ∀ entry ∈ tl, entryIdAbove cols w entry = true :=
                    fun entry hm2 => hgood entry (List.mem_cons_of_mem _ hm2)
                  obtain ⟨hlen, hz, hpos⟩ := ih b0 n0 mx0 hgood' hf
                  have hid : entryId cols (Except.ok vals) = some k := by
                    unfold entryId
                    dsimp only
                    rw [hk]
                  have hfm : (Except.ok vals :: tl).filterMap (entryId cols) =
                      k :: tl.filterMap (entryId cols) := by
                    simp [List.filterMap_cons, hid]
                  refine ⟨by simp only [List.length_cons]; push_cast; omega,
                    fun h0 => by omega, fun hnpos => ?_⟩
                  rw [hfm]
                  by_cases hcmp : k > mx0
                  · rw [← hmx]
                    simp only [hcmp, if_pos]
                    refine ⟨List.mem_cons_self _ _, fun j hj => ?_, by omega⟩
                    rcases List.mem_cons.mp hj with hj | hj
                    · omega
                    · by_cases hn0 : n0 = 0
                      · have htl : tl = [] := by
                          have hl0 : (tl.length : Int) = 0 := by omega
                          exact List.length_eq_zero.mp (by exact_mod_cast hl0)
                        subst htl
                        simp at hj
                      · have := (hpos (by omega)).2.1 j hj
                        omega
                  · have hn0 : n0 ≠ 0 := by
                      intro h0
                      have := hz h0
                      omega
                    have hrec := hpos (by omega)
                    rw [← hmx]
                    simp only [hcmp, if_neg, if_false]
                    refine ⟨List.mem_cons_of_mem _ hrec.1, fun j hj => ?_, by omega⟩
                    rcases List.mem_cons.mp hj with hj | hj
                    · omega
                    · exact hrec.2.1 j hj

theorem exportEventsIncremental_ok_inv (exec : String → List Value → QueryResult)
    (marshal : RowMap → Except String String) (wfail : String → Option String)
    (st : BackupState) (hw : Bool) (n : Int) (st2 : BackupState)
    (h : (exportEventsIncremental exec marshal wfail st hw).1 = Except.ok (n, st2)) :
    ∃ r cols, exec (eventsQuery hw) (eventsArgs hw st.LastEventID) = QueryResult.success r ∧
      r.colsResult = Except.ok cols := by
  unfold exportEventsIncremental at h
  dsimp only at h
  cases hq : exec (eventsQuery hw) (eventsArgs hw st.LastEventID) with
  | failure e => rw [hq] at h; simp at h
  | success r =>
      rw [hq] at h
      dsimp only at h
      cases hc : r.colsResult with
      | error e => rw [hc] at h; simp at h
      | ok cols => exact ⟨r, cols, rfl, hc⟩

theorem exportEventsIncremental_watermark (exec : String → List Value → QueryResult)
    (marshal : RowMap → Except String String) (wfail : String → Option String)
    (st : BackupState) (hw : Bool) (r : RowsData) (cols : List String)
    (hq : exec (eventsQuery hw) (eventsArgs hw st.LastEventID) = QueryResult.success r)
    (hc : r.colsResult = Except.ok cols)
    (hgood : ∀ entry ∈ r.data, entryIdAbove cols st.LastEventID entry = true)
    (hw0 : 0 ≤ st.LastEventID) :
    ∀ (n : Int) (st2 : BackupState),
      (exportEventsIncremental exec marshal wfail st hw).1 = Except.ok (n, st2) →
      st.LastEventID ≤ st2.LastEventID ∧
      (st.LastEventID < st2.LastEventID → 0 < n) ∧
      (0 < n → st2.LastEventID ∈ r.data.filterMap (entryId cols) ∧
        (∀ k ∈ r.data.filterMap (entryId cols), k ≤ st2.LastEventID) ∧
        st.LastEventID < st2.LastEventID) := by
  intro n st2 h
  unfold exportEventsIncremental at h
  dsimp only at h
  rw [hq] at h
  dsimp only at h
  rw [hc] at h
  dsimp only at h
  cases hf : eventsRowsFold marshal cols r.data with
  | error e => rw [hf] at h; simp at h
  | ok p =>
      rw [hf] at h
      obtain ⟨buf, n0, mx⟩ := p
      obtain ⟨hlen, hz, hpos⟩ :=
        eventsRowsFold_spec marshal cols st.LastEventID hw0 r.data buf n0 mx hgood hf
      dsimp only at h
      cases hie : r.iterErr with
      | some e => rw [hie] at h; simp at h
      | none =>
          rw [hie] at h
          by_cases hn0 : n0 = 0
          · rw [if_pos hn0] at h
            simp only [Except.ok.injEq, Prod.mk.injEq] at h
            obtain ⟨hn, hst⟩ := h
            subst hst
            refine ⟨le_refl _, fun hlt => absurd hlt (lt_irrefl _), fun hpos2 => ?_⟩
            omega
          · rw [if_neg hn0] at h
            cases hwf : wfail "events.jsonl" with
            | some e => rw [hwf] at h; simp at h
            | none =>
                rw [hwf] at h
                simp only [Except.ok.injEq, Prod.mk.injEq] at h
                obtain ⟨hn, hst⟩ := h
                subst hst
                have hlen0 : (0 : Int) ≤ n0 := by
                  rw [hlen]; exact_mod_cast Int.ofNat_nonneg _
                have hrec := hpos (by omega)
                simp only
                refine ⟨by omega, fun _ => by omega, fun _ => ⟨hrec.1, hrec.2.1, by omega⟩⟩

theorem runMain_watermark (store : Store) (marshal : RowMap → Except String String)
    (wfail : String → Option String) (st : BackupState) (now : Int) (st2 : BackupState)
    (hgood : ∀ (hw : Bool) (r : RowsData) (cols : List String),
      store.exec (eventsQuery hw) (eventsArgs hw st.LastEventID) = QueryResult.success r →
      r.colsResult = Except.ok cols →
      ∀ entry ∈ r.data, entryIdAbove cols st.LastEventID entry = true)
    (hw0 : 0 ≤ st.LastEventID)
    (h : (runMain store marshal wfail st now).1 = Except.ok st2) :
    st.LastEventID ≤ st2.LastEventID := by
  unfold runMain at h
  dsimp only at h
  cases hr : (runExports store marshal wfail (tableExistsCheck store.exec "wisps").1 st now).1 with
  | error e => rw [hr] at h; simp at h
  | ok st3 =>
      rw [hr] at h
      dsimp only at h
      cases hwf : (saveBackupState wfail st3).1 with
      | error e => rw [hwf] at h; simp at h
      | ok u =>
          rw [hwf] at h
          simp only [Except.ok.injEq] at h
          subst h
          obtain ⟨n1, ne, stE, n3, n4, n5, n6, c, h1, hEv, h3, h4, h5, h6, hc2, hsteq, htr⟩ :=
            runExports_ok store marshal wfail (tableExistsCheck store.exec "wisps").1 st now st3 hr
          obtain ⟨r, cols, hq, hcr⟩ := exportEventsIncremental_ok_inv _ _ _ _ _ _ _ hEv
          have hmon := exportEventsIncremental_watermark store.exec marshal wfail
            { st with Counts := { st.Counts with Issues := n1 } }
            (tableExistsCheck store.exec "wisps").1 r cols hq hcr
            (hgood _ r cols hq hcr) hw0 ne stE hEv
          rw [hsteq]
          exact hmon.1

theorem runBackupExport_watermark_aux (store : Store)
    (marshal : RowMap → Except String String) (wfail : String → Option String)
    (parse : String → Option BackupState) (stateFile : FileReadResult) (force : Bool)
    (now : Int) (st st2 : BackupState)
    (hload : loadBackupState parse stateFile = Except.ok st)
    (hgood : ∀ (hw : Bool) (r : RowsData) (cols : List String),
      store.exec (eventsQuery hw) (eventsArgs hw st.LastEventID) = QueryResult.success r →
      r.colsResult = Except.ok cols →
      ∀ entry ∈ r.data, entryIdAbove cols st.LastEventID entry = true)
    (hw0 : 0 ≤ st.LastEventID)
    (h : (runBackupExport store marshal wfail parse stateFile force now).1 = Except.ok st2) :
    st.LastEventID ≤ st2.LastEventID := by
  unfold runBackupExport at h
  rw [hload] at h
  dsimp only at h
  cases force with
  | true =>
      simp only [if_true] at h
      exact runMain_watermark store marshal wfail st now st2 hgood hw0 h
  | false =>
      simp only [Bool.false_eq_true, if_false] at h
      cases hcm : store.commit1 with
      | error e => rw [hcm] at h; simp at h
      | ok c =>
          rw [hcm] at h
          dsimp only at h
          by_cases hsc : c = st.LastDoltCommit ∧ st.LastDoltCommit ≠ ""
          · rw [if_pos hsc] at h
            simp only [Except.ok.injEq] at h
            subst h
            exact le_refl _
          · rw [if_neg hsc] at h
            exact runMain_watermark store marshal wfail st now st2 hgood hw0 h

/-- A constant-output row marshaller standing in for json.Marshal in
concrete witness runs. -/
def wMarshal : RowMap → Except String String := fun _ => Except.ok "r"

/-- A write oracle under which every file write succeeds. -/
def wNoFail : String → Option String := fun _ => none

/-- A state-file parser that rejects every content. -/
def wParse : String → Option BackupState := fun _ => none

/-- A concrete query executor for witness runs: the (primary) events query
returns one row with id 1, the shadow probe fails, and every other query
returns a clean empty rowset. -/
def wExec : String → List Value → QueryResult := fun sql _ =>
  if sql = eventsQuery false then
    QueryResult.success ⟨Except.ok ["id"], [Except.ok [Value.int 1]], none⟩
  else if sql = probeQuery then QueryResult.failure "probe down"
  else QueryResult.success ⟨Except.ok ["id"], [], none⟩

/-- A concrete store for witness runs. -/
def wStore : Store := ⟨wExec, Except.ok "c1", Except.ok "c2"⟩

/-- The final state of the witness run of wStore from the zero state. -/
def wRunResult : BackupState :=
  { LastDoltCommit := "c2", LastEventID := 1, Timestamp := 7,
    Counts := { Issues := 0, Events := 1, Comments := 0,
                Dependencies := 0, Labels := 0, Config := 0 } }

/-- A query executor returning a clean empty rowset for every query. -/
def wExecEmpty : String → List Value → QueryResult := fun _ _ =>
  QueryResult.success ⟨Except.ok ["id"], [], none⟩

/-- A query executor whose rowset carries a scan error on its only row. -/
def wExecScanErr : String → List Value → QueryResult := fun _ _ =>
  QueryResult.success ⟨Except.ok ["id"], [Except.error "bad scan"], none⟩

/-- A recorded state and parser used by the short-circuit witness. -/
def wStateC : BackupState := { zeroBackupState with LastDoltCommit := "c1" }

/-- Parser that always yields wStateC. -/
def wParseC : String → Option BackupState := fun _ => some wStateC

/-- Claim C6: normalizeValue is a total function on every driver value:
raw bytes decode to a text string, a zero temporal value maps to null and
a non-zero one to its fixed-offset RFC3339 rendering (date, time-of-day
with second precision, UTC offset), null maps to null, and every other
scalar passes through unchanged; no input produces an error. -/
theorem normalizeValue_total_spec :
    (∀ b, normalizeValue (Value.bytes b) = Value.str (decodeBytes b)) ∧
    (∀ t, normalizeValue (Value.time t) =
      if t.isZeroB then Value.null else Value.str (formatRFC3339 t)) ∧
    normalizeValue Value.null = Value.null ∧
    (∀ n, normalizeValue (Value.int n) = Value.int n) ∧
    (∀ s, normalizeValue (Value.str s) = Value.str s) ∧
    (∀ b, normalizeValue (Value.boolean b) = Value.boolean b) :=
  ⟨fun _ => rfl, fun _ => rfl, rfl, fun _ => rfl, fun _ => rfl, fun _ => rfl⟩

/-- Claim C9: a state file that exists but does not parse as JSON makes
loadBackupState return an error — which aborts the whole run with no
effects — whereas only a missing file yields the fresh zero state. -/
theorem loadBackupState_invalid_json_errors
    (parse : String → Option BackupState) (s : String) :
    (parse s = none →
      loadBackupState parse (FileReadResult.content s) =
        Except.error "failed to parse backup state") ∧
    loadBackupState parse FileReadResult.notExist = Except.ok zeroBackupState ∧
    (∀ (store : Store) (marshal : RowMap → Except String String)
        (wfail : String → Option String) (stateFile : FileReadResult)
        (force : Bool) (now : Int) (e : String),
      loadBackupState parse stateFile = Except.error e →
      runBackupExport store marshal wfail parse stateFile force now =
        (Except.error e, [])) := by
  refine ⟨fun hp => ?_, rfl, fun store marshal wfail stateFile force now e hl => ?_⟩
  · unfold loadBackupState
    dsimp only
    rw [hp]
  · unfold runBackupExport
    rw [hl]

/-- Witness for C9 at a concrete unparseable content. -/
theorem loadBackupState_invalid_json_errors_witness :
    wParse "bad json" = none ∧
    loadBackupState wParse (FileReadResult.content "bad json") =
      Except.error "failed to parse backup state" :=
  ⟨rfl, (loadBackupState_invalid_json_errors wParse "bad json").1 rfl⟩

/-- Claim C5: an incremental events export whose watermark-filtered query
yields zero rows returns count 0 and no error, leaves the state (and its
watermark) unchanged, and records no file effect at all on the events
file. -/
theorem exportEventsIncremental_zero_rows (exec : String → List Value → QueryResult)
    (marshal : RowMap → Except String String) (wfail : String → Option String)
    (st : BackupState) (hw : Bool) (cols : List String)
    (hq : exec (eventsQuery hw) (eventsArgs hw st.LastEventID) =
      QueryResult.success ⟨Except.ok cols, [], none⟩) :
    exportEventsIncremental exec marshal wfail st hw =
      (Except.ok (0, st), [Effect.queryExec (eventsQuery hw)]) := by
  unfold exportEventsIncremental
  dsimp only
  rw [hq]
  dsimp only [eventsRowsFold]
  rfl

/-- Witness for C5: a concrete empty events query on the zero state. -/
theorem exportEventsIncremental_zero_rows_witness :
    wExecEmpty (eventsQuery false) (eventsArgs false zeroBackupState.LastEventID) =
      QueryResult.success ⟨Except.ok ["id"], [], none⟩ ∧
    exportEventsIncremental wExecEmpty wMarshal wNoFail zeroBackupState false =
      (Except.ok (0, zeroBackupState), [Effect.queryExec (eventsQuery false)]) :=
  ⟨rfl, exportEventsIncremental_zero_rows wExecEmpty wMarshal wNoFail
    zeroBackupState false ["id"] rfl⟩

/-- Claim C4: if exportTable hits a row-scan, row-iteration or
serialization failure, it returns an error and performs no file write at
all; only when every row was buffered (and the atomic write is possible)
does it write the full buffer once, atomically, and return the row
count. -/
theorem exportTable_error_no_write (exec : String → List Value → QueryResult)
    (marshal : RowMap → Except String String) (wfail : String → Option String)
    (filename sql : String) :
    ((exportTable exec marshal wfail filename sql).1.isOk = false →
      ∀ e ∈ (exportTable exec marshal wfail filename sql).2, e.isFileWrite = false) ∧
    (∀ (r : RowsData) (cols : List String) (buf : String) (n : Int),
      exec sql [] = QueryResult.success r → r.colsResult = Except.ok cols →
      exportRowsFold marshal cols r.data = Except.ok (buf, n) →
      r.iterErr = none → wfail filename = none →
      exportTable exec marshal wfail filename sql =
        (Except.ok n, [Effect.queryExec sql, Effect.fileWrite filename buf false]) ∧
      n = r.data.length) := by
  constructor
  · intro hisok e hmem
    rw [exportTable_error_effects exec marshal wfail filename sql hisok] at hmem
    simp only [List.mem_singleton] at hmem
    subst hmem
    rfl
  · intro r cols buf n hq hc hf hie hwf
    refine ⟨?_, exportRowsFold_length marshal cols r.data buf n hf⟩
    unfold exportTable
    rw [hq]
    dsimp only
    rw [hc]
    dsimp only
    rw [hf]
    dsimp only
    rw [hie]
    dsimp only
    rw [hwf]

/-- Witness for C4 at a concrete scan failure: the export errors and its
only effect is the query execution, which is not a file write. -/
theorem exportTable_error_no_write_witness :
    (exportTable wExecScanErr wMarshal wNoFail "issues.jsonl" "q").1.isOk = false ∧
    Effect.queryExec "q" ∈ (exportTable wExecScanErr wMarshal wNoFail "issues.jsonl" "q").2 ∧
    (Effect.queryExec "q").isFileWrite = false :=
  ⟨by decide, by decide,
    (exportTable_error_no_write wExecScanErr wMarshal wNoFail "issues.jsonl" "q").1
      (by decide) (Effect.queryExec "q") (by decide)⟩

/-- Claim C3: with force unset, a store revision equal to a non-empty
recorded lastRevision stops the run before any export: zero effects and
the loaded state returned unchanged.  An empty recorded lastRevision never
short-circuits: the run coincides with the forced full export. -/
theorem shortCircuit_unchanged (store : Store) (marshal : RowMap → Except String String)
    (wfail : String → Option String) (parse : String → Option BackupState)
    (stateFile : FileReadResult) (now : Int) (st : BackupState) (c : String)
    (hload : loadBackupState parse stateFile = Except.ok st)
    (hcm : store.commit1 = Except.ok c) :
    (c = st.LastDoltCommit → st.LastDoltCommit ≠ "" →
      runBackupExport store marshal wfail parse stateFile false now = (Except.ok st, [])) ∧
    (st.LastDoltCommit = "" →
      runBackupExport store marshal wfail parse stateFile false now =
        runBackupExport store marshal wfail parse stateFile true now) := by
  constructor
  · intro hceq hne
    unfold runBackupExport
    rw [hload]
    simp only [Bool.false_eq_true, if_false]
    rw [hcm]
    dsimp only
    rw [if_pos ⟨hceq, hne⟩]
  · intro hempty
    unfold runBackupExport
    rw [hload]
    simp only [Bool.false_eq_true, if_false, if_true]
    rw [hcm]
    dsimp only
    rw [if_neg (by simp [hempty])]

/-- Witness for C3 at a concrete matching non-empty revision: the run
returns the loaded state with an empty effect trace. -/
theorem shortCircuit_unchanged_witness :
    loadBackupState wParseC (FileReadResult.content "x") = Except.ok wStateC ∧
    runBackupExport wStore wMarshal wNoFail wParseC (FileReadResult.content "x") false 7 =
      (Except.ok wStateC, []) :=
  ⟨rfl, (shortCircuit_unchanged wStore wMarshal wNoFail wParseC
      (FileReadResult.content "x") 7 wStateC "c1" rfl rfl).1 (by decide) (by decide)⟩

theorem exportTable_query_mem (exec : String → List Value → QueryResult)
    (marshal : RowMap → Except String String) (wfail : String → Option String)
    (filename sql s : String)
    (hm : Effect.queryExec s ∈ (exportTable exec marshal wfail filename sql).2) :
    s = sql := by
  rcases exportTable_effects exec marshal wfail filename sql with h | ⟨buf, h⟩ <;>
    rw [h] at hm <;> simp_all

theorem exportEventsIncremental_query_mem (exec : String → List Value → QueryResult)
    (marshal : RowMap → Except String String) (wfail : String → Option String)
    (st : BackupState) (hw : Bool) (s : String)
    (hm : Effect.queryExec s ∈ (exportEventsIncremental exec marshal wfail st hw).2) :
    s = eventsQuery hw := by
  rcases exportEventsIncremental_effects exec marshal wfail st hw with h | ⟨buf, ap, h⟩ <;>
    rw [h] at hm <;> simp_all

theorem runExports_query_mem (store : Store) (marshal : RowMap → Except String String)
    (wfail : String → Option String) (hw : Bool) (st : BackupState) (now : Int) (s : String)
    (hm : Effect.queryExec s ∈ (runExports store marshal wfail hw st now).2) :
    s = issuesQuery hw ∨ s = eventsQuery hw ∨ s = commentsQuery hw ∨
      s = depsQuery hw ∨ s = labelsQuery hw ∨ s = configQuery := by
  unfold runExports at hm
  rcases bindE_mem _ _ _ hm with hm | ⟨n1, hm⟩
  · rw [withErrCtx_snd] at hm
    exact Or.inl (exportTable_query_mem _ _ _ _ _ _ hm)
  rcases bindE_mem _ _ _ hm with hm | ⟨p, hm⟩
  · rw [withErrCtx_snd] at hm
    exact Or.inr (Or.inl (exportEventsIncremental_query_mem _ _ _ _ _ _ hm))
  rcases bindE_mem _ _ _ hm with hm | ⟨n3, hm⟩
  · rw [withErrCtx_snd] at hm
    exact Or.inr (Or.inr (Or.inl (exportTable_query_mem _ _ _ _ _ _ hm)))
  rcases bindE_mem _ _ _ hm with hm | ⟨n4, hm⟩
  · rw [withErrCtx_snd] at hm
    exact Or.inr (Or.inr (Or.inr (Or.inl (exportTable_query_mem _ _ _ _ _ _ hm))))
  rcases bindE_mem _ _ _ hm with hm | ⟨n5, hm⟩
  · rw [withErrCtx_snd] at hm
    exact Or.inr (Or.inr (Or.inr (Or.inr (Or.inl (exportTable_query_mem _ _ _ _ _ _ hm)))))
  rcases bindE_mem _ _ _ hm with hm | ⟨n6, hm⟩
  · rw [withErrCtx_snd] at hm
    exact Or.inr (Or.inr (Or.inr (Or.inr (Or.inr (exportTable_query_mem _ _ _ _ _ _ hm)))))
  cases hc : store.commit2 <;> rw [hc] at hm <;> simp at hm

theorem saveBackupState_no_query (wfail : String → Option String) (st : BackupState)
    (s : String) : Effect.queryExec s ∉ (saveBackupState wfail st).2 := by
  unfold saveBackupState
  cases wfail "backup_state.json" <;> simp

theorem runMain_query_mem (store : Store) (marshal : RowMap → Except String String)
    (wfail : String → Option String) (st : BackupState) (now : Int) (s : String)
    (hm : Effect.queryExec s ∈ (runMain store marshal wfail st now).2) :
    s = probeQuery ∨
    (s = issuesQuery (tableExistsCheck store.exec "wisps").1 ∨
     s = eventsQuery (tableExistsCheck store.exec "wisps").1 ∨
     s = commentsQuery (tableExistsCheck store.exec "wisps").1 ∨
     s = depsQuery (tableExistsCheck store.exec "wisps").1 ∨
     s = labelsQuery (tableExistsCheck store.exec "wisps").1 ∨
     s = configQuery) := by
  unfold runMain at hm
  dsimp only at hm
  have hpr := tableExistsCheck_effects store.exec "wisps"
  cases hr : (runExports store marshal wfail (tableExistsCheck store.exec "wisps").1 st now).1 with
  | error e =>
      rw [hr] at hm
      dsimp only at hm
      rw [List.mem_append, hpr] at hm
      rcases hm with hm | hm
      · simp at hm
        exact Or.inl hm
      · exact Or.inr (runExports_query_mem _ _ _ _ _ _ _ hm)
  | ok st3 =>
      rw [hr] at hm
      dsimp only at hm
      cases hwf : (saveBackupState wfail st3).1 with
      | error e =>
          rw [hwf] at hm
          dsimp only at hm
          rw [List.mem_append, hpr] at hm
          rcases hm with hm | hm
          · simp at hm
            exact Or.inl hm
          · exact Or.inr (runExports_query_mem _ _ _ _ _ _ _ hm)
      | ok u =>
          rw [hwf] at hm
          dsimp only at hm
          rw [List.mem_append, List.mem_append, hpr] at hm
          rcases hm with (hm | hm) | hm
          · simp at hm
            exact Or.inl hm
          · exact Or.inr (runExports_query_mem _ _ _ _ _ _ _ hm)
          · exact absurd hm (saveBackupState_no_query wfail st3 s)

/-- Claim C10: a failing shadow-probe metadata query makes tableExistsCheck
return false rather than an error, and the run then proceeds with the
primary-only query form for every entity: no wisps-merged query is ever
executed. -/
theorem tableExistsCheck_failure_false (store : Store)
    (marshal : RowMap → Except String String) (wfail : String → Option String)
    (st : BackupState) (now : Int) (e : String)
    (h : store.exec probeQuery [Value.str "wisps"] = QueryResult.failure e) :
    tableExistsCheck store.exec "wisps" = (false, [Effect.queryExec probeQuery]) ∧
    (∀ s, Effect.queryExec s ∈ (runMain store marshal wfail st now).2 →
      s = probeQuery ∨ s = issuesQuery false ∨ s = eventsQuery false ∨
      s = commentsQuery false ∨ s = depsQuery false ∨ s = labelsQuery false ∨
      s = configQuery) := by
  have hte : tableExistsCheck store.exec "wisps" = (false, [Effect.queryExec probeQuery]) := by
    unfold tableExistsCheck
    rw [h]
  refine ⟨hte, fun s hm => ?_⟩
  have := runMain_query_mem store marshal wfail st now s hm
  rw [hte] at this
  exact this

/-- Witness for C10: the concrete store whose probe query fails. -/
theorem tableExistsCheck_failure_false_witness :
    wStore.exec probeQuery [Value.str "wisps"] = QueryResult.failure "probe down" ∧
    tableExistsCheck wStore.exec "wisps" = (false, [Effect.queryExec probeQuery]) :=
  ⟨by decide,
    (tableExistsCheck_failure_false wStore wMarshal wNoFail zeroBackupState 7
      "probe down" (by decide)).1⟩

theorem runMain_stateWrite_conj (store : Store) (marshal : RowMap → Except String String)
    (wfail : String → Option String) (st : BackupState) (now : Int) :
    ((runMain store marshal wfail st now).1.isOk = false →
      ((runMain store marshal wfail st now).2).countP Effect.isStateWrite = 0) ∧
    ((runMain store marshal wfail st now).2).countP Effect.isStateWrite ≤ 1 ∧
    (0 < ((runMain store marshal wfail st now).2).countP Effect.isStateWrite →
      ∃ st2, (runMain store marshal wfail st now).1 = Except.ok st2 ∧
        ((runMain store marshal wfail st now).2).getLast? =
          some (Effect.fileWrite "backup_state.json" (marshalState st2) false)) := by
  have hrm := runMain_stateWrite store marshal wfail st now
  refine ⟨hrm.2.1, hrm.1, fun hp => ?_⟩
  cases hres : (runMain store marshal wfail st now).1 with
  | error e =>
      have h0 := hrm.2.1 (by rw [hres]; rfl)
      omega
  | ok st2 => exact ⟨st2, rfl, (hrm.2.2 st2 hres).2⟩

/-- Claim C1: if any step of the orchestrator errors, the run aborts with
no write to backup_state.json at all (its bytes — and hence the persisted
lastRevision and lastWatermark — are untouched); across every run the
state file is written at most once, and when it is written it is the very
last effect, of a run whose result is success (every entity export
succeeded). -/
theorem runBackupExport_aborts_without_persisting (store : Store)
    (marshal : RowMap → Except String String) (wfail : String → Option String)
    (parse : String → Option BackupState) (stateFile : FileReadResult)
    (force : Bool) (now : Int) :
    ((runBackupExport store marshal wfail parse stateFile force now).1.isOk = false →
      ((runBackupExport store marshal wfail parse stateFile force now).2).countP
        Effect.isStateWrite = 0) ∧
    ((runBackupExport store marshal wfail parse stateFile force now).2).countP
      Effect.isStateWrite ≤ 1 ∧
    (0 < ((runBackupExport store marshal wfail parse stateFile force now).2).countP
        Effect.isStateWrite →
      ∃ st2, (runBackupExport store marshal wfail parse stateFile force now).1 =
          Except.ok st2 ∧
        ((runBackupExport store marshal wfail parse stateFile force now).2).getLast? =
          some (Effect.fileWrite "backup_state.json" (marshalState st2) false)) := by
  unfold runBackupExport
  cases hl : loadBackupState parse stateFile with
  | error e => exact ⟨fun _ => rfl, by simp, fun hp => by simp at hp⟩
  | ok st =>
      cases force with
      | true =>
          simp only [if_true]
          exact runMain_stateWrite_conj store marshal wfail st now
      | false =>
          simp only [Bool.false_eq_true, if_false]
          cases hcm : store.commit1 with
          | error e2 => exact ⟨fun _ => rfl, by simp, fun hp => by simp at hp⟩
          | ok c =>
              dsimp only
              by_cases hsc : c = st.LastDoltCommit ∧ st.LastDoltCommit ≠ ""
              · rw [if_pos hsc]
                exact ⟨fun hfa => by simp [Except.isOk, Except.toBool] at hfa,
                  by simp, fun hp => by simp at hp⟩
              · rw [if_neg hsc]
                exact runMain_stateWrite_conj store marshal wfail st now

/-- Witness for C1 at a concrete failing run (unreadable state file): the
run errors and records zero state-file writes. -/
theorem runBackupExport_aborts_without_persisting_witness :
    (runBackupExport wStore wMarshal wNoFail wParse
      (FileReadResult.readFailure "io") false 7).1.isOk = false ∧
    ((runBackupExport wStore wMarshal wNoFail wParse
      (FileReadResult.readFailure "io") false 7).2).countP Effect.isStateWrite = 0 :=
  ⟨by decide, (runBackupExport_aborts_without_persisting wStore wMarshal wNoFail wParse
      (FileReadResult.readFailure "io") false 7).1 (by decide)⟩

/-- Claim C2: provided the store honours the watermark filter of the
events query (every returned row has an int64 id above the queried
watermark) and the stored watermark is non-negative, a successful run
never decreases lastWatermark (so it is non-decreasing across every
sequence of successful runs); per incremental export, the watermark is
unchanged on zero rows, strictly increases exactly when new rows exist,
and then equals the maximum id observed among the returned rows. -/
theorem lastWatermark_monotone (store : Store) (marshal : RowMap → Except String String)
    (wfail : String → Option String) (parse : String → Option BackupState)
    (stateFile : FileReadResult) (force : Bool) (now : Int) (st : BackupState)
    (hload : loadBackupState parse stateFile = Except.ok st)
    (hgood : ∀ (hw : Bool) (r : RowsData) (cols : List String),
      store.exec (eventsQuery hw) (eventsArgs hw st.LastEventID) = QueryResult.success r →
      r.colsResult = Except.ok cols →
      ∀ entry ∈ r.data, entryIdAbove cols st.LastEventID entry = true)
    (hw0 : 0 ≤ st.LastEventID) :
    (∀ st2, (runBackupExport store marshal wfail parse stateFile force now).1 =
        Except.ok st2 → st.LastEventID ≤ st2.LastEventID) ∧
    (∀ (hw : Bool) (r : RowsData) (cols : List String) (n : Int) (stE : BackupState),
      store.exec (eventsQuery hw) (eventsArgs hw st.LastEventID) = QueryResult.success r →
      r.colsResult = Except.ok cols →
      (exportEventsIncremental store.exec marshal wfail st hw).1 = Except.ok (n, stE) →
      st.LastEventID ≤ stE.LastEventID ∧
      (st.LastEventID < stE.LastEventID → 0 < n) ∧
      (0 < n → stE.LastEventID ∈ r.data.filterMap (entryId cols) ∧
        (∀ k ∈ r.data.filterMap (entryId cols), k ≤ stE.LastEventID) ∧
        st.LastEventID < stE.LastEventID)) :=
  ⟨fun st2 h => runBackupExport_watermark_aux store marshal wfail parse stateFile
      force now st st2 hload hgood hw0 h,
   fun hw r cols n stE hq hc h =>
     exportEventsIncremental_watermark store.exec marshal wfail st hw r cols hq hc
       (hgood hw r cols hq hc) hw0 n stE h⟩

theorem wStore_events_good : ∀ (hw : Bool) (r : RowsData) (cols : List String),
    wStore.exec (eventsQuery hw) (eventsArgs hw zeroBackupState.LastEventID) =
      QueryResult.success r →
    r.colsResult = Except.ok cols →
    ∀ entry ∈ r.data, entryIdAbove cols zeroBackupState.LastEventID entry = true := by
  intro hw r cols hq hc entry hmem
  cases hw with
  | false =>
      have hval : wStore.exec (eventsQuery false)
          (eventsArgs false zeroBackupState.LastEventID) =
          QueryResult.success ⟨Except.ok ["id"], [Except.ok [Value.int 1]], none⟩ := by decide
      rw [hval] at hq
      obtain rfl := QueryResult.success.inj hq
      simp only at hc
      obtain rfl := Except.ok.inj hc
      simp only [List.mem_singleton] at hmem
      subst hmem
      decide
  | true =>
      have hval : wStore.exec (eventsQuery true)
          (eventsArgs true zeroBackupState.LastEventID) =
          QueryResult.success ⟨Except.ok ["id"], [], none⟩ := by decide
      rw [hval] at hq
      obtain rfl := QueryResult.success.inj hq
      simp at hmem

/-- Witness for C2: the concrete witness run starts at watermark 0,
exports one event with id 1, and ends with watermark 1 ≥ 0. -/
theorem lastWatermark_monotone_witness :
    (runBackupExport wStore wMarshal wNoFail wParse FileReadResult.notExist true 7).1 =
      Except.ok wRunResult ∧
    zeroBackupState.LastEventID ≤ wRunResult.LastEventID :=
  ⟨by decide,
   (lastWatermark_monotone wStore wMarshal wNoFail wParse FileReadResult.notExist true 7
      zeroBackupState rfl wStore_events_good (by decide)).1 wRunResult (by decide)⟩

/-- Claim C7 counterexample: a completed concrete run executes the
incremental events export at effect position 3, before the comments
full-snapshot export at position 5 (and before dependencies, labels and
config), refuting the claim that all full-snapshot entity exports are
performed before the incremental stream export. -/
theorem exports_order_counterexample :
    (runBackupExport wStore wMarshal wNoFail wParse FileReadResult.notExist true 7).1 =
      Except.ok wRunResult ∧
    ((runBackupExport wStore wMarshal wNoFail wParse FileReadResult.notExist true 7).2)[3]? =
      some (Effect.queryExec (eventsQuery false)) ∧
    ((runBackupExport wStore wMarshal wNoFail wParse FileReadResult.notExist true 7).2)[5]? =
      some (Effect.queryExec (commentsQuery false)) := by decide

/-- Claim C7 (amended): within a completed run, the issues full-snapshot
export is performed first, then the single incremental events export, and
only then the comments, dependencies, labels and config full-snapshot
exports, in that fixed order; each count existential is bound to the value
its export call actually returned, so the final state overwrites every
full-snapshot count with its export result while the incremental stream
count is the stored count plus the count the events export returned. -/
theorem exports_order_amended (store : Store) (marshal : RowMap → Except String String)
    (wfail : String → Option String) (hw : Bool) (st : BackupState) (now : Int)
    (st2 : BackupState)
    (h : (runExports store marshal wfail hw st now).1 = Except.ok st2) :
    queryTrace (runExports store marshal wfail hw st now).2 =
      [issuesQuery hw, eventsQuery hw, commentsQuery hw, depsQuery hw,
       labelsQuery hw, configQuery] ∧
    ∃ n1 ne stE n3 n4 n5 n6,
      (exportTable store.exec marshal wfail "issues.jsonl" (issuesQuery hw)).1 =
        Except.ok n1 ∧
      (exportEventsIncremental store.exec marshal wfail
          { st with Counts := { st.Counts with Issues := n1 } } hw).1 =
        Except.ok (ne, stE) ∧
      (exportTable store.exec marshal wfail "comments.jsonl" (commentsQuery hw)).1 =
        Except.ok n3 ∧
      (exportTable store.exec marshal wfail "dependencies.jsonl" (depsQuery hw)).1 =
        Except.ok n4 ∧
      (exportTable store.exec marshal wfail "labels.jsonl" (labelsQuery hw)).1 =
        Except.ok n5 ∧
      (exportTable store.exec marshal wfail "config.jsonl" configQuery).1 =
        Except.ok n6 ∧
      st2.Counts = { Issues := n1, Events := st.Counts.Events + ne, Comments := n3,
                     Dependencies := n4, Labels := n5, Config := n6 } := by
  obtain ⟨n1, ne, stE, n3, n4, n5, n6, c, h1, hEv, h3, h4, h5, h6, hc2, hsteq, htr⟩ :=
    runExports_ok store marshal wfail hw st now st2 h
  have hframe := exportEventsIncremental_frame store.exec marshal wfail _ hw ne stE hEv
  refine ⟨htr, n1, ne, stE, n3, n4, n5, n6, h1, hEv, h3, h4, h5, h6, ?_⟩
  rw [hsteq]
  simp only
  rw [hframe.1]

/-- Witness for C7 (amended): the concrete witness run completes, its
query trace is the amended order, and its final counts show the amended
count semantics concretely — the events count accumulated 0 + 1 while
every full-snapshot count was overwritten with its export result 0. -/
theorem exports_order_amended_witness :
    (runExports wStore wMarshal wNoFail false zeroBackupState 7).1 =
      Except.ok wRunResult ∧
    wRunResult.Counts =
      { Issues := 0, Events := zeroBackupState.Counts.Events + 1, Comments := 0,
        Dependencies := 0, Labels := 0, Config := 0 } ∧
    queryTrace (runExports wStore wMarshal wNoFail false zeroBackupState 7).2 =
      [issuesQuery false, eventsQuery false, commentsQuery false, depsQuery false,
       labelsQuery false, configQuery] :=
  ⟨by decide, by decide, (exports_order_amended wStore wMarshal wNoFail false
      zeroBackupState 7 wRunResult (by decide)).1⟩

/-- The source tag of a row in a merged primary/shadow export. -/
inductive RowSource where
  | primary : RowSource
  | shadow : RowSource
deriving DecidableEq, Repr

/-- A row of a merged entity export, reduced to its ordering key, its
source table and an opaque payload. -/
structure KeyedRow where
  key : Int
  src : RowSource
  payload : String
deriving DecidableEq, Repr

instance : IsTotal KeyedRow (fun a b => a.key ≤ b.key) :=
  ⟨fun a b => Int.le_total a.key b.key⟩

instance : IsTrans KeyedRow (fun a b => a.key ≤ b.key) :=
  ⟨fun _ _ _ h1 h2 => le_trans h1 h2⟩

/-- Modelled from the spec: the relational store is an external
collaborator (spec sections 1 and 6) whose engine is not part of this
repository, so its evaluation of the merged query shapes built at
backup_export.go:156-159 and 308-316 — primary table UNION ALL shadow
table, then ORDER BY the ordering key — is modelled as a stable ascending
sort (insertion sort) of the concatenation of the primary rows followed by
the shadow rows, the stable ascending merge the spec requires of the
store interface. -/
def unionAllOrderBy (primaryRows shadowRows : List KeyedRow) : List KeyedRow :=
  List.insertionSort (fun a b => a.key ≤ b.key) (primaryRows ++ shadowRows)

theorem filter_orderedInsert (k : Int) (x : KeyedRow) (l : List KeyedRow) :
    (List.orderedInsert (fun a b => a.key ≤ b.key) x l).filter (fun r => r.key == k) =
      ((x :: l).filter (fun r => r.key == k)) := by
  induction l with
  | nil => rfl
  | cons y ys ih =>
      by_cases hxy : x.key ≤ y.key
      · simp [List.orderedInsert, hxy]
      · simp only [List.orderedInsert, if_neg hxy]
        by_cases hxk : x.key = k
        · have hyk : ¬ y.key = k := by omega
          simp [List.filter_cons, hxk, hyk, ih]
        · simp [List.filter_cons, hxk, ih]

theorem filter_insertionSort (k : Int) (l : List KeyedRow) :
    (List.insertionSort (fun a b => a.key ≤ b.key) l).filter (fun r => r.key == k) =
      l.filter (fun r => r.key == k) := by
  induction l with
  | nil => rfl
  | cons x xs ih =>
      simp only [List.insertionSort]
      rw [filter_orderedInsert]
      simp [List.filter_cons, ih]

/-- Claim C8 (store semantics modelled from the spec): the merged output of
a primary and a shadow query is sorted ascending by the ordering key, is a
permutation of all primary and shadow rows, and is stable: for every key,
the rows with that key appear as the primary rows followed by the shadow
rows — deterministically; in particular primary keys [1,3,5] merged with
shadow keys [2,3,4] yield [1, 2, 3 primary, 3 shadow, 4, 5]. -/
theorem unionAllOrderBy_stable_merge (p s : List KeyedRow) :
    List.Sorted (fun a b => a.key ≤ b.key) (unionAllOrderBy p s) ∧
    List.Perm (unionAllOrderBy p s) (p ++ s) ∧
    (∀ k : Int, (unionAllOrderBy p s).filter (fun r => r.key == k) =
      p.filter (fun r => r.key == k) ++ s.filter (fun r => r.key == k)) ∧
    unionAllOrderBy
      [⟨1, RowSource.primary, "p1"⟩, ⟨3, RowSource.primary, "p3"⟩,
       ⟨5, RowSource.primary, "p5"⟩]
      [⟨2, RowSource.shadow, "s2"⟩, ⟨3, RowSource.shadow, "s3"⟩,
       ⟨4, RowSource.shadow, "s4"⟩] =
      [⟨1, RowSource.primary, "p1"⟩, ⟨2, RowSource.shadow, "s2"⟩,
       ⟨3, RowSource.primary, "p3"⟩, ⟨3, RowSource.shadow, "s3"⟩,
       ⟨4, RowSource.shadow, "s4"⟩, ⟨5, RowSource.primary, "p5"⟩] := by
  refine ⟨List.sorted_insertionSort _ _, List.perm_insertionSort _ _, fun k => ?_, by decide⟩
  unfold unionAllOrderBy
  rw [filter_insertionSort, List.filter_append]

end BackupExport


